import Mathlib

/-!
Verification of the druid-shell platform backends (skia / dri_platform):
a shallow embedding of the per-window event/paint/idle/timer pump of
`src/druid-shell/src/platform/skia/window.rs`,
`src/druid-shell/src/platform/dri_platform/window.rs` and
`src/druid-shell/src/platform/custom_skia/util.rs`, together with proofs
about its damage accumulation, paint sequencing, timer heap, idle queue,
reentrancy guard, mouse-button translation and window-handle sentinels.

Coordinates are rational numbers (the Rust code uses `f64`; every operation
the claims touch — scaling, floor/ceil pixel expansion, union of rectangle
lists — is exact on rationals).  Machine instants are natural numbers.
-/

namespace DruidShell

/-! ### Geometry: kurbo rectangles, points, sizes, scale -/

/-- A kurbo `Rect` in DP or pixel coordinates: `(x0, y0)`–`(x1, y1)`. -/
structure Rect where
  x0 : ℚ
  y0 : ℚ
  x1 : ℚ
  y1 : ℚ
deriving DecidableEq, Repr

/-- A kurbo `Point`. -/
structure Point where
  x : ℚ
  y : ℚ
deriving DecidableEq, Repr

/-- A kurbo `Size`. -/
structure Size where
  width : ℚ
  height : ℚ
deriving DecidableEq, Repr

/-- kurbo `Size::to_rect`: the rectangle from the origin with this size. -/
def Size.to_rect (s : Size) : Rect := ⟨0, 0, s.width, s.height⟩

/-- `crate::scale::Scale`: DP-to-pixel factors for each axis. -/
structure Scale where
  sx : ℚ
  sy : ℚ
deriving DecidableEq, Repr

/-- `Scalable::to_px` on rectangles: multiply each coordinate by the scale of
its axis (DP → physical pixels). -/
def Rect.to_px (r : Rect) (s : Scale) : Rect :=
  ⟨r.x0 * s.sx, r.y0 * s.sy, r.x1 * s.sx, r.y1 * s.sy⟩

/-- `Scalable::to_dp` on rectangles: divide each coordinate by the scale of
its axis (physical pixels → DP). -/
def Rect.to_dp (r : Rect) (s : Scale) : Rect :=
  ⟨r.x0 / s.sx, r.y0 / s.sy, r.x1 / s.sx, r.y1 / s.sy⟩

/-- Modelled from the spec: kurbo `Rect::expand` (the kurbo crate is an
external dependency, not part of this repository).  The spec describes the
invalidated rect as "expanded to the next pixel boundary (ceil to pixel grid
under the current scale)": the minima are rounded down and the maxima are
rounded up to integer coordinates, expanding the rectangle outward. -/
def Rect.expand (r : Rect) : Rect :=
  ⟨(⌊r.x0⌋ : ℤ), (⌊r.y0⌋ : ℤ), (⌈r.x1⌉ : ℤ), (⌈r.y1⌉ : ℤ)⟩

/-- `Scalable::to_dp` on points (physical pixels → DP), used by the mouse
handlers of `skia/window.rs`. -/
def Point.to_dp (p : Point) (s : Scale) : Point := ⟨p.x / s.sx, p.y / s.sy⟩

/-! ### Damage regions

`crate::region::Region` is part of this repository but is not among the
provided sources (only its callers are).  Modelled from the spec:
"an additive union of rectangles in device-independent points"; "Multiple
rects may be coalesced as a list of non-overlapping rects or kept as a raw
union; the public contract is only that paint sees a region equal to the
union of all invalidations since the last paint start."  We keep the raw
list of rectangles, in insertion order. -/

/-- Modelled from the spec: `crate::region::Region`, a list of DP rects. -/
abbrev Region : Type := List Rect

/-- Modelled from the spec: `Region::EMPTY`. -/
def Region.EMPTY : Region := ([] : List Rect)

/-- Modelled from the spec: `Region::add_rect` unions one more rect into the
damage region. -/
def Region.add_rect (rg : Region) (r : Rect) : Region :=
  (rg : List Rect) ++ [r]

/-- Modelled from the spec: `Region::union_with` unions a whole region into
this one. -/
def Region.union_with (rg other : Region) : Region :=
  (rg : List Rect) ++ (other : List Rect)

/-- The rects of a region, in order (`Region::rects`). -/
def Region.rects (rg : Region) : List Rect := rg

/-- The set of points covered by one rectangle (closed on both sides). -/
def rectCoverage (r : Rect) : Set (ℚ × ℚ) :=
  {p | r.x0 ≤ p.1 ∧ p.1 ≤ r.x1 ∧ r.y0 ≤ p.2 ∧ p.2 ≤ r.y1}

/-- The set of points covered by a damage region: the union of the coverage
of its rects. -/
def regionCoverage (rg : Region) : Set (ℚ × ℚ) :=
  {p | ∃ r ∈ Region.rects rg, p ∈ rectCoverage r}

/-! ### The direct-render clip transform (dri_platform/window.rs) -/

/-- `skia_safe::IRect`: an integer rectangle `(left, top, right, bottom)`. -/
structure IRect where
  left : Int
  top : Int
  right : Int
  bottom : Int
deriving DecidableEq, Repr

/-- `IRect::new(left, top, right, bottom)`. -/
def IRect.new (l t r b : Int) : IRect := ⟨l, t, r, b⟩

/-- `dri_platform/window.rs::transform_clip_rect`: rotate a clip rect 90
degrees and shift it to fit a portrait-mounted display of height `h`:

    let (x1, y1) = (rect.left, rect.bottom);
    let (x2, y2) = (rect.right, rect.top);
    let (left, bottom) = (h - y1, x2);
    let (right, top) = (h - y2, x1);
    IRect::new(left, top, right, bottom)
-/
def transform_clip_rect (rect : IRect) (h : Int) : IRect :=
  let x1 := rect.left
  let y1 := rect.bottom
  let x2 := rect.right
  let y2 := rect.top
  let left := h - y1
  let bottom := x2
  let right := h - y2
  let top := x1
  IRect.new left top right bottom

/-! ### Window state, handler calls, and the reentrancy guard -/

/-- The mutable `WindowState` of `skia/window.rs`: scale factor, logical
size, current damage, previous frame's damage.  (The unused `_area` and
`_idle_queue` fields are omitted; the idle queue lives beside the state.) -/
structure WindowState where
  scale : Scale
  size : Size
  invalid : Region
  prev_invalid : Region
deriving DecidableEq

/-- Which of the window's two `RefCell`s are currently mutably borrowed when
a dispatch is attempted: the handler cell and the window-state cell. -/
structure BorrowFlags where
  handlerBorrowed : Bool
  stateBorrowed : Bool
deriving DecidableEq, Repr

/-- `RefCell::try_borrow_mut`: succeeds iff the cell is not already
borrowed. -/
def tryBorrowMut (borrowed : Bool) : Option Unit :=
  if borrowed then none else some ()

/-- `Window::with_handler_and_dont_check_the_other_borrows`: try to borrow
the handler cell; on success run the callback once, on failure log and
return `None`.  Returns (result, number of callback invocations, whether a
diagnostic was logged). -/
def with_handler_and_dont_check_the_other_borrows {α : Type}
    (b : BorrowFlags) (f : Unit → α) : Option α × Nat × Bool :=
  match tryBorrowMut b.handlerBorrowed with
  | some _ => (some (f ()), 1, false)
  | none => (none, 0, true)

/-- `Window::with_handler`: if either the handler cell or the window-state
cell is already borrowed, log a diagnostic and return `None` without
touching the handler; otherwise dispatch through
`with_handler_and_dont_check_the_other_borrows`. -/
def with_handler {α : Type} (b : BorrowFlags) (f : Unit → α) :
    Option α × Nat × Bool :=
  if (tryBorrowMut b.handlerBorrowed).isNone ∨ (tryBorrowMut b.stateBorrowed).isNone then
    (none, 0, true)
  else
    with_handler_and_dont_check_the_other_borrows b f

/-! ### Mouse input translation -/

/-- `glutin::event::MouseButton` (the native button of a winit event). -/
inductive GlutinMouseButton where
  | Left
  | Right
  | Middle
  | Other (n : Nat)
deriving DecidableEq, Repr

/-- `crate::mouse::MouseButton` (the toolkit-facing button). -/
inductive MouseButton where
  | None
  | Left
  | Right
  | Middle
  | X1
  | X2
deriving DecidableEq, Repr

/-- `skia/window.rs::convert_mouse_button`: map the native button by a small
table; anything but Left/Right/Middle maps to `None` (the event is then
dropped). -/
def convert_mouse_button : GlutinMouseButton → Option MouseButton
  | .Left => some .Left
  | .Right => some .Right
  | .Middle => some .Middle
  | _ => none

/-- The toolkit-facing `MouseEvent` as built by the skia backend's button
handlers (modifiers, button mask, focus and wheel delta are hardcoded
empty in the source and omitted here). -/
structure MouseEvent where
  pos : Point
  count : Nat
  button : MouseButton
deriving DecidableEq, Repr

/-- An observable callback into the `WinHandler`, in dispatch order. -/
inductive HandlerCall where
  | preparePaint
  | paint (buffer_damage : Region)
  | timer (token : Nat)
  | idle (token : Nat)
  | callbackAsAny (payload : Nat)
  | mouseDown (ev : MouseEvent)
  | mouseUp (ev : MouseEvent)
deriving DecidableEq

/-! ### Idle queue -/

/-- `skia/window.rs::IdleKind`: an item of the idle queue.  A `Callback`'s
boxed closure is identified by an opaque payload number. -/
inductive IdleKind where
  | Callback (payload : Nat)
  | Token (tok : Nat)
  | Redraw
deriving DecidableEq, Repr

/-- `IdleHandle::add_idle_callback`: push a boxed closure onto the shared
idle queue. -/
def IdleHandle.add_idle_callback (q : List IdleKind) (payload : Nat) : List IdleKind :=
  q ++ [IdleKind.Callback payload]

/-- `IdleHandle::add_idle_token`: push a toolkit idle token onto the shared
idle queue. -/
def IdleHandle.add_idle_token (q : List IdleKind) (tok : Nat) : List IdleKind :=
  q ++ [IdleKind.Token tok]

/-- `IdleHandle::_schedule_redraw`: push a redraw item onto the shared idle
queue (unconditionally — the source performs a plain `push`). -/
def IdleHandle.schedule_redraw (q : List IdleKind) : List IdleKind :=
  q ++ [IdleKind.Redraw]

/-- The handler call produced when `Window::run_idle` dispatches one idle
item: a `Callback` invokes the closure with `handler.as_any()`, a `Token`
invokes `handler.idle(tok)`, and a `Redraw` only sets the local
`needs_redraw` flag (no handler call). -/
def idleDispatch : IdleKind → Option HandlerCall
  | .Callback payload => some (.callbackAsAny payload)
  | .Token tok => some (.idle tok)
  | .Redraw => none

/-- `Window::run_idle`: swap the entire idle queue for an empty list, then —
under the `with_handler` reentrancy guard — walk the swapped items in order
and dispatch each one.  Returns the new queue and the handler calls made. -/
def Window.run_idle (b : BorrowFlags) (q : List IdleKind) :
    List IdleKind × List HandlerCall :=
  let queue := q
  let res := with_handler b (fun _ => queue.filterMap idleDispatch)
  (([] : List IdleKind), res.1.getD [])

/-- Number of pending redraw items in an idle queue. -/
def countRedraw (q : List IdleKind) : Nat :=
  q.countP (fun k => k = IdleKind.Redraw)

/-- `Window::request_anim_frame` (skia backend): the entire body of the
source function is commented out; it performs no action and posts nothing
to the idle queue. -/
def Window.request_anim_frame (q : List IdleKind) : List IdleKind := q

/-! ### Invalidation -/

/-- `Window::add_invalid_rect`: convert the DP rect to physical pixels under
the current scale, expand it outward to the pixel grid, convert it back to
DP, and add it to the damage region. -/
def Window.add_invalid_rect (st : WindowState) (rect : Rect) : WindowState :=
  let scale := st.scale
  let rect := ((rect.to_px scale).expand).to_dp scale
  { st with invalid := st.invalid.add_rect rect }

/-- The pixel-grid expansion applied by `add_invalid_rect` before unioning:
DP → px, expand outward to integers, px → DP. -/
def pixelExpand (s : Scale) (r : Rect) : Rect :=
  ((r.to_px s).expand).to_dp s

/-- `Window::invalidate_rect`: add the rect to the damage region (and call
`request_anim_frame`, which is a no-op in this backend). -/
def Window.invalidate_rect (st : WindowState) (rect : Rect) : WindowState :=
  Window.add_invalid_rect st rect

/-- `Window::invalidate`: mark the window's whole current size dirty. -/
def Window.invalidate (st : WindowState) : WindowState :=
  Window.invalidate_rect st st.size.to_rect

/-- A sequence of `invalidate_rect` calls, in order. -/
def Window.invalidate_rects (st : WindowState) (rs : List Rect) : WindowState :=
  rs.foldl Window.invalidate_rect st

/-! ### Paint (`Window::render`, skia backend)

`render` is invoked by the application loop from its quiescent state: no
`RefCell` borrow is outstanding when it is entered, so each internal
`borrow_mut!` succeeds and the `with_handler` guard passes (the failure
branches are unreachable from this call site).  The handler may issue
further invalidations from inside `prepare_paint` and `paint`; those
re-entrant `invalidate_rect` calls are the parameters `prepInv` and
`paintInv`. -/

/-- `Window::render`: call `prepare_paint` (during which the handler may
invalidate `prepInv`), take-and-clear the current damage, union it with the
previous frame's damage into `buffer_damage`, call `paint` with
`buffer_damage` (during which the handler may invalidate `paintInv`), and
store the taken damage as the new previous damage.  Returns the handler
calls made and the resulting state. -/
def Window.render (prepInv paintInv : List Rect) (st : WindowState) :
    List HandlerCall × WindowState :=
  let st0 := Window.invalidate_rects st prepInv
  let invalid := st0.invalid
  let st1 := { st0 with invalid := Region.EMPTY }
  let prev_invalid := st1.prev_invalid
  let buffer_damage := invalid.union_with prev_invalid
  let st2 := Window.invalidate_rects st1 paintInv
  let st3 := { st2 with prev_invalid := invalid }
  ([HandlerCall.preparePaint, HandlerCall.paint buffer_damage], st3)

/-! ### Mouse button handlers -/

/-- `Window::handle_button_press`: translate the native button; if it maps
to a toolkit button, build a `count = 1` mouse event at the DP position and
dispatch `mouse_down` under the guard (the handler's own state effect is
`hEff`); otherwise do nothing at all. -/
def Window.handle_button_press (b : BorrowFlags) (hEff : WindowState → WindowState)
    (st : WindowState) (ppos : Point) (mb : GlutinMouseButton) :
    List HandlerCall × WindowState :=
  match convert_mouse_button mb with
  | some button =>
    let scale := st.scale
    let ev : MouseEvent := ⟨ppos.to_dp scale, 1, button⟩
    match with_handler b (fun _ => HandlerCall.mouseDown ev) with
    | (some c, _, _) => ([c], hEff st)
    | (none, _, _) => ([], st)
  | none => ([], st)

/-- `Window::handle_button_release`: as `handle_button_press` but with
`count = 0` and `mouse_up`. -/
def Window.handle_button_release (b : BorrowFlags) (hEff : WindowState → WindowState)
    (st : WindowState) (ppos : Point) (mb : GlutinMouseButton) :
    List HandlerCall × WindowState :=
  match convert_mouse_button mb with
  | some button =>
    let scale := st.scale
    let ev : MouseEvent := ⟨ppos.to_dp scale, 0, button⟩
    match with_handler b (fun _ => HandlerCall.mouseUp ev) with
    | (some c, _, _) => ([c], hEff st)
    | (none, _, _) => ([], st)
  | none => ([], st)

/-! ### Timers and the timer queue

`custom_skia/util.rs` defines `Timer` (deadline + token) with
`Ord` reversed on the deadline, so that `std::collections::BinaryHeap` — a
max-heap — keeps the earliest deadline at its head.  The heap itself is the
Rust standard library's binary heap; its `push`/`pop` (with `sift_up` and
`sift_down_to_bottom`) are translated below over a `List Timer` backing
store, because `run_timers`' delivery order — in particular the order of
timers with equal deadlines — is decided by this exact algorithm. -/

/-- `custom_skia/util.rs::Timer`: a deadline (`Instant`, modelled as a
natural number) and a `TimerToken` (a natural number). -/
structure Timer where
  deadline : Nat
  token : Nat
deriving DecidableEq, Repr

instance : Inhabited Timer := ⟨⟨0, 0⟩⟩

/-- Rust `impl Ord for Timer`:
`self.deadline.cmp(&other.deadline).reverse()` — so `a ≤ b` iff
`b.deadline ≤ a.deadline`, and the greatest timer is the earliest one.
The token does not participate in the ordering. -/
def timerLe (a b : Timer) : Bool := decide (b.deadline ≤ a.deadline)

/-- Rust std `BinaryHeap::sift_up` (hole-based): the hole at `pos` holds
`e`; while the hole is above `start` and `e` is greater than the parent,
move the parent down into the hole; finally write `e` into the hole.
`fuel ≥ pos` steps always suffice since the hole index strictly
decreases. -/
def siftUpGo : Nat → List Timer → Timer → Nat → Nat → List Timer
  | 0, l, e, _, pos => l.set pos e
  | fuel + 1, l, e, start, pos =>
    if start < pos then
      let parent := (pos - 1) / 2
      if timerLe e (l.getD parent default) then l.set pos e
      else siftUpGo fuel (l.set pos (l.getD parent default)) e start parent
    else l.set pos e

/-- Rust std `BinaryHeap::sift_up` entered with the element currently at
`pos` as the hole element. -/
def siftUp (l : List Timer) (start pos : Nat) : List Timer :=
  siftUpGo pos l (l.getD pos default) start pos

/-- Rust std `BinaryHeap::push`: append the item and sift it up from the
last position. -/
def heapPush (l : List Timer) (t : Timer) : List Timer :=
  siftUp (l ++ [t]) 0 l.length

/-- Rust std `BinaryHeap::sift_down_to_bottom` (hole-based): the hole at
`pos` holds `e`.  Descend to the bottom of the tree: while two children are
below `end`, move the greater child up into the hole (on a tie the right
child, per `child += (get(child) <= get(child+1))`); if exactly the left
child remains at `end - 1`, move it up; then write `e` into the hole and
sift it up (our single call site has `start = pos = 0`, so the final
`sift_up` starts from 0).  The hole index strictly increases, so
`fuel ≥ end` steps always suffice. -/
def sdbGo : Nat → List Timer → Timer → Nat → Nat → List Timer
  | 0, l, e, _, pos => l.set pos e
  | fuel + 1, l, e, endd, pos =>
    let child := 2 * pos + 1
    if child + 2 ≤ endd then
      let c :=
        if timerLe (l.getD child default) (l.getD (child + 1) default) then child + 1
        else child
      sdbGo fuel (l.set pos (l.getD c default)) e endd c
    else if child + 1 = endd then
      siftUpGo child (l.set pos (l.getD child default)) e 0 child
    else
      siftUpGo pos l e 0 pos

/-- Rust std `BinaryHeap::pop`: remove the last element; if the heap is
still non-empty, swap it with the root (which is returned) and restore the
heap shape with `sift_down_to_bottom(0)`. -/
def heapPop (l : List Timer) : Option (Timer × List Timer) :=
  if l.length = 0 then none
  else if l.length = 1 then some (l.getD 0 default, [])
  else
    some (l.getD 0 default,
      sdbGo (l.length - 1) l.dropLast (l.getD (l.length - 1) default) (l.length - 1) 0)

/-- `Window::run_timers(now)` (skia backend): while the queue's head
(`next_timeout`, the root of the heap — also the element `pop` returns) has
deadline ≤ `now`, pop it and deliver `handler.timer(token)`.  Returns the
timers delivered, in delivery order, and the remaining queue.  The fuel is
the queue length; every iteration pops one element, so it never runs out. -/
def runTimersGo : Nat → List Timer → Nat → List Timer × List Timer
  | 0, l, _ => ([], l)
  | fuel + 1, l, now =>
    match heapPop l with
    | none => ([], l)
    | some (t, l2) =>
      if t.deadline ≤ now then
        let r := runTimersGo fuel l2 now
        (t :: r.1, r.2)
      else ([], l)

/-- `Window::run_timers`: see `runTimersGo`. -/
def Window.run_timers (l : List Timer) (now : Nat) : List Timer × List Timer :=
  runTimersGo l.length l now

/-- The handler calls `run_timers` makes: `handler.timer(token)` for each
popped timer, in pop order. -/
def runTimersCalls (l : List Timer) (now : Nat) : List HandlerCall :=
  (Window.run_timers l now).1.map (fun t => HandlerCall.timer t.token)

/-- Deadline of the timer stored at index `i` (tree-array indexing: the
parent of `i > 0` is `(i-1)/2`). -/
def dlAt (l : List Timer) (i : Nat) : Nat := (l.getD i default).deadline

/-- The max-heap invariant of Rust's `BinaryHeap` under `Timer`'s reversed
order: every parent's deadline is ≤ its children's deadlines (a min-heap on
deadlines). -/
def IsHeap (l : List Timer) : Prop :=
  ∀ i, i < l.length → 0 < i → dlAt l ((i - 1) / 2) ≤ dlAt l i

instance decidableIsHeap (l : List Timer) : Decidable (IsHeap l) :=
  inferInstanceAs
    (Decidable (∀ i, i < l.length → 0 < i → dlAt l ((i - 1) / 2) ≤ dlAt l i))

/-- The heap invariant with the node at index `p` exempted as a child (its
own pairs with its children still count, with whatever value sits at `p`). -/
def heapExcept (l : List Timer) (p : Nat) : Prop :=
  ∀ i, i < l.length → 0 < i → i ≠ p → dlAt l ((i - 1) / 2) ≤ dlAt l i

/-! ### Timer tokens (`crate::window`, modelled from the spec) -/

/-- Modelled from the spec: `TimerToken::next()` of `crate::window` (part of
this repository but not among the provided sources).  "Tokens are globally
unique (process-wide monotonically increasing)": each call returns the
current counter value and bumps the counter. -/
def TimerToken.next (counter : Nat) : Nat × Nat := (counter, counter + 1)

/-- Modelled from the spec: `TimerToken::INVALID`, the reserved sentinel
returned by `request_timer` on a dropped window. -/
def TimerToken.INVALID : Nat := 0

/-- `custom_skia/util.rs::Timer::new(deadline)`: draw the next token from
the process-wide counter (threaded explicitly). -/
def Timer.new (deadline : Nat) (counter : Nat) : Timer × Nat :=
  let n := TimerToken.next counter
  (⟨deadline, n.1⟩, n.2)

/-- A sequence of `Timer::new` calls threading the process-wide counter. -/
def issueTimers (counter : Nat) (ds : List Nat) : List Timer × Nat :=
  match ds with
  | [] => ([], counter)
  | d :: rest =>
    let r := Timer.new d counter
    let more := issueTimers r.2 rest
    (r.1 :: more.1, more.2)

/-! ### WindowHandle (control plane over a weak reference) -/

/-- The owned data a `WindowHandle`'s weak reference resolves to. -/
structure WindowData where
  state : WindowState
  idle_queue : List IdleKind
  timer_queue : List Timer
deriving DecidableEq

/-- The result of `Weak::upgrade` on a `WindowHandle`: `some` while the
window is alive, `none` once it has been dropped. -/
abbrev UpgradedWindow := Option WindowData

/-- Outcome of an operation that may panic. -/
inductive PanicOr (α : Type) where
  | panicked
  | ok (v : α)
deriving DecidableEq

/-- `piet::PietText` — an empty text-context value. -/
structure PietText where
deriving DecidableEq

/-- `WindowHandle::request_timer`: upgrade; if alive, create a `Timer` and
push it onto the window's `BinaryHeap`, returning its token; if dropped,
return `TimerToken::INVALID`. -/
def WindowHandle.request_timer (w : UpgradedWindow) (deadline counter : Nat) :
    Nat × UpgradedWindow × Nat :=
  match w with
  | some wd =>
    let r := Timer.new deadline counter
    (r.1.token, some { wd with timer_queue := heapPush wd.timer_queue r.1 }, r.2)
  | none => (TimerToken.INVALID, none, counter)

/-- `WindowHandle::get_position`: a warn-stub returning `Point(0,0)`
unconditionally. -/
def WindowHandle.get_position (_w : UpgradedWindow) : Point := ⟨0, 0⟩

/-- `WindowHandle::get_size`: a warn-stub returning `Size(0,0)`
unconditionally. -/
def WindowHandle.get_size (_w : UpgradedWindow) : Size := ⟨0, 0⟩

/-- `WindowHandle::get_idle_handle`: upgrade; if alive, a handle sharing the
window's idle queue; if dropped, `None`. -/
def WindowHandle.get_idle_handle (w : UpgradedWindow) : Option (List IdleKind) :=
  match w with
  | some wd => some wd.idle_queue
  | none => none

/-- `WindowHandle::invalidate`: upgrade; if alive, forward to
`Window::invalidate`; if dropped, do nothing. -/
def WindowHandle.invalidate (w : UpgradedWindow) : UpgradedWindow :=
  match w with
  | some wd => some { wd with state := Window.invalidate wd.state }
  | none => none

/-- `WindowHandle::invalidate_rect`: upgrade; if alive, forward to
`Window::invalidate_rect`; if dropped, do nothing. -/
def WindowHandle.invalidate_rect (w : UpgradedWindow) (r : Rect) : UpgradedWindow :=
  match w with
  | some wd => some { wd with state := Window.invalidate_rect wd.state r }
  | none => none

/-- `WindowHandle::text`: `self.0.upgrade().unwrap_or_else(|| panic!(...))`
— builds a text context while the window is alive but panics ("Failed to
produce a text context") if the window has been dropped. -/
def WindowHandle.text (w : UpgradedWindow) : PanicOr PietText :=
  match w with
  | some _ => PanicOr.ok ⟨⟩
  | none => PanicOr.panicked

/-- `WindowHandle::get_scale`: `unimplemented!()` — panics unconditionally,
alive or dropped. -/
def WindowHandle.get_scale (_w : UpgradedWindow) : PanicOr Scale :=
  PanicOr.panicked

/-- `WindowHandle::set_title`: `unimplemented!()` — panics unconditionally,
alive or dropped. -/
def WindowHandle.set_title (_w : UpgradedWindow) : PanicOr Unit :=
  PanicOr.panicked

/-! ### Supporting lemmas about invalidation sequences -/

theorem invalidate_rect_scale (st : WindowState) (r : Rect) :
    (Window.invalidate_rect st r).scale = st.scale := rfl

theorem invalidate_rect_prev (st : WindowState) (r : Rect) :
    (Window.invalidate_rect st r).prev_invalid = st.prev_invalid := rfl

theorem invalidate_rect_invalid (st : WindowState) (r : Rect) :
    (Window.invalidate_rect st r).invalid
      = st.invalid ++ [pixelExpand st.scale r] := rfl

theorem invalidate_rects_invalid (rs : List Rect) (st : WindowState) :
    (Window.invalidate_rects st rs).invalid
      = st.invalid ++ rs.map (pixelExpand st.scale) := by
  induction rs generalizing st with
  | nil => simp [Window.invalidate_rects]
  | cons r t ih =>
    have h1 : Window.invalidate_rects st (r :: t)
        = Window.invalidate_rects (Window.invalidate_rect st r) t := rfl
    rw [h1, ih, invalidate_rect_invalid, invalidate_rect_scale]
    simp

theorem invalidate_rects_prev (rs : List Rect) (st : WindowState) :
    (Window.invalidate_rects st rs).prev_invalid = st.prev_invalid := by
  induction rs generalizing st with
  | nil => rfl
  | cons r t ih =>
    have h1 : Window.invalidate_rects st (r :: t)
        = Window.invalidate_rects (Window.invalidate_rect st r) t := rfl
    rw [h1, ih, invalidate_rect_prev]

theorem invalidate_rects_scale (rs : List Rect) (st : WindowState) :
    (Window.invalidate_rects st rs).scale = st.scale := by
  induction rs generalizing st with
  | nil => rfl
  | cons r t ih =>
    have h1 : Window.invalidate_rects st (r :: t)
        = Window.invalidate_rects (Window.invalidate_rect st r) t := rfl
    rw [h1, ih, invalidate_rect_scale]

/-! ### Claim theorems: paint, damage, guard, idle, input -/

/-- C1: For every call to `Window::render`, the paint sequence is:
`prepare_paint` is called once; the current damage region (as it stands
after `prepare_paint`) is taken and replaced by the empty region;
`buffer_damage` is the union of the taken region with the previous frame's
damage; `paint` is invoked with `buffer_damage`; and afterwards the stored
previous damage equals the region that was taken (not `buffer_damage`),
while the new current damage holds only what the handler invalidated during
`paint`. -/
theorem render_paint_sequence (prepInv paintInv : List Rect) (st : WindowState) :
    (Window.render prepInv paintInv st).1
      = [HandlerCall.preparePaint,
         HandlerCall.paint
           (Region.union_with (Window.invalidate_rects st prepInv).invalid
             st.prev_invalid)]
    ∧ (Window.render prepInv paintInv st).2.prev_invalid
      = (Window.invalidate_rects st prepInv).invalid
    ∧ (Window.render prepInv paintInv st).2.invalid
      = paintInv.map (pixelExpand st.scale) := by
  refine ⟨?_, rfl, ?_⟩
  · show [HandlerCall.preparePaint, HandlerCall.paint _] = _
    rw [invalidate_rects_prev]
  · show (Window.invalidate_rects _ paintInv).invalid = _
    rw [invalidate_rects_invalid]
    have hsc : (Window.invalidate_rects st prepInv).scale = st.scale :=
      invalidate_rects_scale _ _
    simp [Region.EMPTY, hsc]

/-- C2: For every sequence of `invalidate_rect(r_i)` calls between two
paints (starting from an empty damage region), the region the next paint
takes covers exactly the union of the `r_i`, where each `r_i` is first
expanded to the enclosing pixel boundary under the current scale (DP → px,
expanded outward to integer coordinates, back to DP) before being unioned
into the damage region. -/
theorem invalidate_rects_coverage (st : WindowState) (rs : List Rect)
    (h : st.invalid = Region.EMPTY) :
    regionCoverage (Window.invalidate_rects st rs).invalid
      = {p | ∃ r ∈ rs, p ∈ rectCoverage (pixelExpand st.scale r)}
    ∧ (Window.render [] [] (Window.invalidate_rects st rs)).2.prev_invalid
      = (Window.invalidate_rects st rs).invalid := by
  refine ⟨?_, rfl⟩
  rw [invalidate_rects_invalid, h]
  ext p
  simp [regionCoverage, Region.EMPTY, Region.rects]

/-- Witness for C2 at a concrete window state and rect list. -/
theorem invalidate_rects_coverage_witness :
    (WindowState.mk ⟨2, 2⟩ ⟨800, 600⟩ Region.EMPTY Region.EMPTY).invalid = Region.EMPTY
    ∧ regionCoverage (Window.invalidate_rects
        (WindowState.mk ⟨2, 2⟩ ⟨800, 600⟩ Region.EMPTY Region.EMPTY)
        [⟨10, 10, 110, 60⟩]).invalid
      = {p | ∃ r ∈ [(⟨10, 10, 110, 60⟩ : Rect)],
          p ∈ rectCoverage (pixelExpand ⟨2, 2⟩ r)} :=
  ⟨rfl, (invalidate_rects_coverage _ _ rfl).1⟩

theorem with_handler_blocked {α : Type} (b : BorrowFlags) (f : Unit → α)
    (h : b.handlerBorrowed = true ∨ b.stateBorrowed = true) :
    with_handler b f = (none, 0, true) := by
  rcases h with h | h <;> simp [with_handler, tryBorrowMut, h]

theorem with_handler_ok {α : Type} (b : BorrowFlags) (f : Unit → α)
    (hh : b.handlerBorrowed = false) (hs : b.stateBorrowed = false) :
    with_handler b f = (some (f ()), 1, false) := by
  simp [with_handler, tryBorrowMut, hh, hs,
    with_handler_and_dont_check_the_other_borrows]

/-- C4: For every dispatch through the guard (`with_handler`), if the
handler cell or the window-state cell is already borrowed, the callback is
not invoked (zero invocations, result `None`) and a diagnostic is logged;
otherwise the callback is invoked exactly once. -/
theorem with_handler_guard {α : Type} (b : BorrowFlags) (f : Unit → α) :
    ((b.handlerBorrowed = true ∨ b.stateBorrowed = true) →
      with_handler b f = (none, 0, true))
    ∧ (b.handlerBorrowed = false → b.stateBorrowed = false →
      with_handler b f = (some (f ()), 1, false)) := by
  exact ⟨with_handler_blocked b f, with_handler_ok b f⟩

/-- Witness for C4: a blocked dispatch and a clean dispatch. -/
theorem with_handler_guard_witness :
    with_handler (BorrowFlags.mk true false) (fun _ => (7 : Nat)) = (none, 0, true)
    ∧ with_handler (BorrowFlags.mk false false) (fun _ => (7 : Nat)) = (some 7, 1, false) :=
  ⟨(with_handler_guard (BorrowFlags.mk true false) (fun _ => (7 : Nat))).1 (Or.inl rfl),
   (with_handler_guard (BorrowFlags.mk false false) (fun _ => (7 : Nat))).2 rfl rfl⟩

/-- C5: `run_idle` swaps the entire queue contents for an empty list, then
dispatches the swapped items under the handler-reentrancy guard in FIFO
(enqueue) order: a `Callback` item invokes the closure with the handler's
`as_any` reference and a `Token` item invokes `handler.idle(token)`. -/
theorem run_idle_spec (b : BorrowFlags) (q : List IdleKind)
    (hh : b.handlerBorrowed = false) (hs : b.stateBorrowed = false) :
    (Window.run_idle b q).1 = []
    ∧ (Window.run_idle b q).2 = q.filterMap idleDispatch
    ∧ (∀ payload : Nat, idleDispatch (IdleKind.Callback payload)
        = some (HandlerCall.callbackAsAny payload))
    ∧ (∀ tok : Nat, idleDispatch (IdleKind.Token tok)
        = some (HandlerCall.idle tok)) := by
  refine ⟨rfl, ?_, fun _ => rfl, fun _ => rfl⟩
  have h := with_handler_ok b (fun _ => q.filterMap idleDispatch) hh hs
  simp [Window.run_idle, h]

/-- Witness for C5 on a concrete queue holding each kind of item. -/
theorem run_idle_spec_witness :
    (BorrowFlags.mk false false).handlerBorrowed = false
    ∧ (Window.run_idle (BorrowFlags.mk false false)
        [IdleKind.Callback 7, IdleKind.Token 3, IdleKind.Redraw, IdleKind.Token 9]).2
      = [HandlerCall.callbackAsAny 7, HandlerCall.idle 3, HandlerCall.idle 9] :=
  ⟨rfl,
    ((run_idle_spec (BorrowFlags.mk false false)
      [IdleKind.Callback 7, IdleKind.Token 3, IdleKind.Redraw, IdleKind.Token 9]
      rfl rfl).2.1).trans (by decide)⟩

/-- C9 counterexample: `request_anim_frame` posts nothing at all (its body
is commented out), so after a call on an empty queue there are zero redraw
items pending — not one; and two `_schedule_redraw` calls leave two redraw
items pending — redraw items are not coalesced. -/
theorem request_anim_frame_cex :
    countRedraw (Window.request_anim_frame []) = 0
    ∧ countRedraw (IdleHandle.schedule_redraw (IdleHandle.schedule_redraw [])) = 2 := by
  decide

/-- C9 (amended): `request_anim_frame` is a no-op — it posts no item to the
idle queue; and `_schedule_redraw` (never called by the backend) appends one
redraw item per call without coalescing. -/
theorem request_anim_frame_noop (q : List IdleKind) :
    Window.request_anim_frame q = q
    ∧ countRedraw (IdleHandle.schedule_redraw q) = countRedraw q + 1 := by
  refine ⟨rfl, ?_⟩
  simp [countRedraw, IdleHandle.schedule_redraw]

/-- C10: For every button-press or button-release event whose native button
is not Left, Right or Middle, `convert_mouse_button` returns `None` and the
handlers dispatch no callback at all, leaving all window state unchanged. -/
theorem other_button_dropped (b : BorrowFlags) (hEff : WindowState → WindowState)
    (st : WindowState) (ppos : Point) (n : Nat) :
    convert_mouse_button (GlutinMouseButton.Other n) = none
    ∧ Window.handle_button_press b hEff st ppos (GlutinMouseButton.Other n) = ([], st)
    ∧ Window.handle_button_release b hEff st ppos (GlutinMouseButton.Other n) = ([], st) :=
  ⟨rfl, rfl, rfl⟩

/-! ### Index, length and multiset bookkeeping for the binary heap -/

theorem getD_set_self {l : List Timer} {j : Nat} (hj : j < l.length) (v : Timer) :
    (l.set j v).getD j default = v := by
  simp [List.getD_eq_getElem?_getD, List.getElem?_set_eq_of_lt v hj]

theorem getD_set_other (l : List Timer) {i j : Nat} (h : j ≠ i) (v : Timer) :
    (l.set j v).getD i default = l.getD i default := by
  simp [List.getD_eq_getElem?_getD, List.getElem?_set_ne h]

theorem dlAt_set {l : List Timer} {j : Nat} (hj : j < l.length) (v : Timer) (i : Nat) :
    dlAt (l.set j v) i = if i = j then v.deadline else dlAt l i := by
  by_cases h : i = j
  · subst h
    rw [if_pos rfl]
    unfold dlAt
    rw [getD_set_self hj v]
  · rw [if_neg h]
    unfold dlAt
    rw [getD_set_other l (Ne.symm h) v]

theorem getD_dropLast {l : List Timer} {k : Nat} (h : k < l.length - 1) :
    l.dropLast.getD k default = l.getD k default := by
  rw [List.dropLast_eq_take]
  simp [List.getD_eq_getElem?_getD, List.getElem?_take_of_lt h]

theorem dlAt_dropLast {l : List Timer} {k : Nat} (h : k < l.length - 1) :
    dlAt l.dropLast k = dlAt l k := by
  unfold dlAt
  rw [getD_dropLast h]

theorem siftUpGo_length (fuel : Nat) :
    ∀ (l : List Timer) (e : Timer) (start pos : Nat),
      (siftUpGo fuel l e start pos).length = l.length := by
  induction fuel with
  | zero => intro l e start pos; simp [siftUpGo]
  | succ fuel ih =>
    intro l e start pos
    simp only [siftUpGo]
    split
    · split
      · simp
      · rw [ih]; simp
    · simp

theorem sdbGo_length (fuel : Nat) :
    ∀ (l : List Timer) (e : Timer) (endd pos : Nat),
      (sdbGo fuel l e endd pos).length = l.length := by
  induction fuel with
  | zero => intro l e endd pos; simp [sdbGo]
  | succ fuel ih =>
    intro l e endd pos
    simp only [sdbGo]
    split
    · rw [ih]; simp
    · split
      · rw [siftUpGo_length]; simp
      · rw [siftUpGo_length]

theorem multiset_set (l : List Timer) :
    ∀ (i : Nat), i < l.length → ∀ (x : Timer),
      (l.getD i default) ::ₘ (↑(l.set i x) : Multiset Timer)
        = x ::ₘ (↑l : Multiset Timer) := by
  induction l with
  | nil => intro i h; simp at h
  | cons a t ih =>
    intro i h x
    cases i with
    | zero =>
      show a ::ₘ (↑(x :: t) : Multiset Timer) = x ::ₘ (↑(a :: t) : Multiset Timer)
      rw [← Multiset.cons_coe, ← Multiset.cons_coe, Multiset.cons_swap]
    | succ i =>
      have h' : i < t.length := by simpa using h
      show t.getD i default ::ₘ (↑(a :: t.set i x) : Multiset Timer)
        = x ::ₘ (↑(a :: t) : Multiset Timer)
      rw [← Multiset.cons_coe, ← Multiset.cons_coe, Multiset.cons_swap, ih i h' x,
        Multiset.cons_swap]

theorem multiset_set_set (l : List Timer) {i j : Nat} (hij : i ≠ j)
    (hi : i < l.length) (hj : j < l.length) (e : Timer) :
    (↑((l.set i (l.getD j default)).set j e) : Multiset Timer)
      = (↑(l.set i e) : Multiset Timer) := by
  have hjA : j < (l.set i (l.getD j default)).length := by simpa using hj
  have h1 := multiset_set (l.set i (l.getD j default)) j hjA e
  rw [getD_set_other l hij (l.getD j default)] at h1
  have h2 := multiset_set l i hi (l.getD j default)
  have h3 := multiset_set l i hi e
  have key : (l.getD i default) ::ₘ (l.getD j default)
        ::ₘ (↑((l.set i (l.getD j default)).set j e) : Multiset Timer)
      = (l.getD i default) ::ₘ (l.getD j default)
        ::ₘ (↑(l.set i e) : Multiset Timer) := by
    calc (l.getD i default) ::ₘ (l.getD j default)
          ::ₘ (↑((l.set i (l.getD j default)).set j e) : Multiset Timer)
        = (l.getD i default) ::ₘ (e ::ₘ (↑(l.set i (l.getD j default)) : Multiset Timer)) := by
          rw [h1]
      _ = e ::ₘ ((l.getD i default) ::ₘ (↑(l.set i (l.getD j default)) : Multiset Timer)) := by
          rw [Multiset.cons_swap]
      _ = e ::ₘ (l.getD j default) ::ₘ (↑l : Multiset Timer) := by rw [h2]
      _ = (l.getD j default) ::ₘ (e ::ₘ (↑l : Multiset Timer)) := by rw [Multiset.cons_swap]
      _ = (l.getD j default) ::ₘ (l.getD i default) ::ₘ (↑(l.set i e) : Multiset Timer) := by
          rw [h3]
      _ = (l.getD i default) ::ₘ (l.getD j default) ::ₘ (↑(l.set i e) : Multiset Timer) := by
          rw [Multiset.cons_swap]
  exact (Multiset.cons_inj_right _).mp ((Multiset.cons_inj_right _).mp key)

theorem siftUpGo_multiset (fuel : Nat) :
    ∀ (l : List Timer) (e : Timer) (start pos : Nat), pos < l.length →
      (↑(siftUpGo fuel l e start pos) : Multiset Timer)
        = (↑(l.set pos e) : Multiset Timer) := by
  induction fuel with
  | zero => intro l e start pos _; rfl
  | succ fuel ih =>
    intro l e start pos h
    simp only [siftUpGo]
    split
    · rename_i hstart
      split
      · rfl
      · have hppos : (pos - 1) / 2 < pos := by omega
        have hplen : (pos - 1) / 2 < l.length := lt_trans hppos h
        rw [ih _ e start _ (by simpa using hplen)]
        exact multiset_set_set l (by omega) h hplen e
    · rfl

theorem sdbGo_multiset (fuel : Nat) :
    ∀ (l : List Timer) (e : Timer) (endd pos : Nat),
      pos < endd → endd ≤ l.length →
      (↑(sdbGo fuel l e endd pos) : Multiset Timer)
        = (↑(l.set pos e) : Multiset Timer) := by
  induction fuel with
  | zero => intro l e endd pos _ _; rfl
  | succ fuel ih =>
    intro l e endd pos h1 h2
    simp only [sdbGo]
    split
    · rename_i h3
      set c := if timerLe (l.getD (2 * pos + 1) default) (l.getD (2 * pos + 1 + 1) default)
          then 2 * pos + 1 + 1 else 2 * pos + 1 with hc
      have hcb : 2 * pos + 1 ≤ c ∧ c ≤ 2 * pos + 2 := by
        rw [hc]; split <;> omega
      have hclen : c < l.length := by omega
      have hcend : c < endd := by omega
      rw [ih _ e endd c hcend (by simpa using h2)]
      exact multiset_set_set l (by omega) (by omega) hclen e
    · split
      · rename_i h3 h4
        have hchlen : 2 * pos + 1 < l.length := by omega
        rw [siftUpGo_multiset _ _ e 0 _ (by simpa using hchlen)]
        exact multiset_set_set l (by omega) (by omega) hchlen e
      · exact siftUpGo_multiset _ l e 0 pos (by omega)

/-! ### The heap invariant is maintained by `sift_up` and
`sift_down_to_bottom`

The proofs track the textbook "hole" invariants: while the hole is at `p`
with element `e` in hand, all parent/child pairs not having `p` as the
child still satisfy the heap order (`heapExcept`), every child of `p` is
≥ `e` (so `e` can be dropped into the hole), and every child of `p` is ≥
the value above the hole (so a parent moved down keeps the order). -/

theorem dlAt_getD (l : List Timer) (i : Nat) :
    (l.getD i default).deadline = dlAt l i := rfl

theorem set_hole_isHeap (l : List Timer) (e : Timer) (pos : Nat)
    (hlen : pos < l.length)
    (hC1 : heapExcept l pos)
    (hC2 : ∀ j, j < l.length → 0 < j → (j - 1) / 2 = pos → e.deadline ≤ dlAt l j)
    (hstop : 0 < pos → dlAt l ((pos - 1) / 2) ≤ e.deadline) :
    IsHeap (l.set pos e) := by
  intro i hi hi0
  rw [List.length_set] at hi
  rw [dlAt_set hlen e, dlAt_set hlen e]
  by_cases hip : i = pos
  · subst hip
    rw [if_pos rfl, if_neg (by omega : ¬((i - 1) / 2 = i))]
    exact hstop hi0
  · rw [if_neg hip]
    by_cases hq : (i - 1) / 2 = pos
    · rw [if_pos hq]
      exact hC2 i hi hi0 hq
    · rw [if_neg hq]
      exact hC1 i hi hi0 hip

theorem siftUpGo_isHeap (fuel : Nat) :
    ∀ (l : List Timer) (e : Timer) (pos : Nat),
      pos ≤ fuel → pos < l.length →
      heapExcept l pos →
      (∀ j, j < l.length → 0 < j → (j - 1) / 2 = pos → e.deadline ≤ dlAt l j) →
      (∀ j, j < l.length → 0 < j → (j - 1) / 2 = pos → 0 < pos →
        dlAt l ((pos - 1) / 2) ≤ dlAt l j) →
      IsHeap (siftUpGo fuel l e 0 pos) := by
  induction fuel with
  | zero =>
    intro l e pos hfuel hlen hC1 hC2 _
    have hpos0 : pos = 0 := by omega
    subst hpos0
    exact set_hole_isHeap l e 0 hlen hC1 hC2 (fun h => absurd h (by omega))
  | succ fuel ih =>
    intro l e pos hfuel hlen hC1 hC2 hC3
    simp only [siftUpGo]
    split
    · rename_i hpos
      split
      · rename_i hle
        refine set_hole_isHeap l e pos hlen hC1 hC2 (fun _ => ?_)
        unfold dlAt
        simp only [timerLe, decide_eq_true_eq] at hle
        exact hle
      · rename_i hgt
        have hpp : (pos - 1) / 2 < pos := by omega
        have hplen : (pos - 1) / 2 < l.length := lt_trans hpp hlen
        have hmove : e.deadline < dlAt l ((pos - 1) / 2) := by
          unfold dlAt
          simp only [timerLe, decide_eq_true_eq] at hgt
          omega
        have happ : IsHeap (siftUpGo fuel
            (l.set pos (l.getD ((pos - 1) / 2) default)) e 0 ((pos - 1) / 2)) := by
          apply ih _ e ((pos - 1) / 2) (by omega) (by simpa using hplen)
          · -- heap pairs away from the new hole
            intro i hi hi0 _
            rw [List.length_set] at hi
            rw [dlAt_set hlen _, dlAt_set hlen _]
            by_cases hip : i = pos
            · subst hip
              rw [if_pos rfl, if_neg (by omega : ¬((i - 1) / 2 = i))]
              rw [dlAt_getD]
            · rw [if_neg hip]
              by_cases hq : (i - 1) / 2 = pos
              · rw [if_pos hq, dlAt_getD]
                exact hC3 i hi hi0 hq hpos
              · rw [if_neg hq]
                exact hC1 i hi hi0 hip
          · -- children of the new hole dominate `e`
            intro j hj hj0 hjpar
            rw [List.length_set] at hj
            rw [dlAt_set hlen _]
            by_cases hjp : j = pos
            · rw [if_pos hjp, dlAt_getD]
              exact le_of_lt hmove
            · rw [if_neg hjp]
              have h1 := hC1 j hj hj0 hjp
              rw [hjpar] at h1
              omega
          · -- children of the new hole dominate the grandparent
            intro j hj hj0 hjpar hppos
            rw [List.length_set] at hj
            rw [dlAt_set hlen _, dlAt_set hlen _]
            rw [if_neg (by omega : ¬(((pos - 1) / 2 - 1) / 2 = pos))]
            have hpar_pair := hC1 ((pos - 1) / 2) hplen hppos (by omega)
            by_cases hjp : j = pos
            · rw [if_pos hjp, dlAt_getD]
              exact hpar_pair
            · rw [if_neg hjp]
              have hj_pair := hC1 j hj hj0 hjp
              rw [hjpar] at hj_pair
              omega
        exact happ
    · rename_i hpos
      exact set_hole_isHeap l e pos hlen hC1 hC2 (fun h => absurd h hpos)

theorem sdbGo_isHeap (fuel : Nat) :
    ∀ (l : List Timer) (e : Timer) (pos : Nat),
      l.length ≤ fuel + pos →
      pos < l.length →
      heapExcept l pos →
      (0 < pos → dlAt l ((pos - 1) / 2) ≤ dlAt l pos) →
      IsHeap (sdbGo fuel l e l.length pos) := by
  induction fuel with
  | zero =>
    intro l e pos hfuel hlen _ _
    exact absurd hlen (by omega)
  | succ fuel ih =>
    intro l e pos hfuel hlen hD1 hD2
    simp only [sdbGo]
    split
    · rename_i hb1
      have main : ∀ c : Nat, 2 * pos + 1 ≤ c → c ≤ 2 * pos + 2 →
          (∀ s, s < l.length → 0 < s → (s - 1) / 2 = pos → s ≠ c → dlAt l c ≤ dlAt l s) →
          IsHeap (sdbGo fuel (l.set pos (l.getD c default)) e l.length c) := by
        intro c hcl hcu hsib
        have hclen : c < l.length := by omega
        have hcpar : (c - 1) / 2 = pos := by omega
        have hlen' : (l.set pos (l.getD c default)).length = l.length := by simp
        have happ : IsHeap (sdbGo fuel (l.set pos (l.getD c default)) e
            (l.set pos (l.getD c default)).length c) := by
          apply ih _ e c (by rw [hlen']; omega) (by rw [hlen']; omega)
          · -- heap pairs away from the new hole
            intro i hi hi0 hic
            rw [List.length_set] at hi
            rw [dlAt_set hlen _, dlAt_set hlen _]
            by_cases hip : i = pos
            · subst hip
              rw [if_pos rfl, if_neg (by omega : ¬((i - 1) / 2 = i)), dlAt_getD]
              have h1 := hD2 hi0
              have h2 := hD1 c hclen (by omega) (by omega)
              rw [hcpar] at h2
              omega
            · rw [if_neg hip]
              by_cases hq : (i - 1) / 2 = pos
              · rw [if_pos hq, dlAt_getD]
                exact hsib i hi hi0 hq hic
              · rw [if_neg hq]
                exact hD1 i hi hi0 hip
          · -- the stale value at the new hole respects its parent
            intro _
            rw [dlAt_set hlen _, dlAt_set hlen _, if_pos hcpar,
              if_neg (by omega : ¬(c = pos)), dlAt_getD]
        rw [hlen'] at happ
        exact happ
      by_cases hcc : timerLe (l.getD (2 * pos + 1) default) (l.getD (2 * pos + 1 + 1) default)
      · rw [if_pos hcc]
        apply main (2 * pos + 1 + 1) (by omega) (by omega)
        intro s hs hs0 hspar hsne
        have hs1 : s = 2 * pos + 1 := by omega
        subst hs1
        unfold dlAt
        simp only [timerLe, decide_eq_true_eq] at hcc
        exact hcc
      · rw [if_neg hcc]
        apply main (2 * pos + 1) (by omega) (by omega)
        intro s hs hs0 hspar hsne
        have hs1 : s = 2 * pos + 1 + 1 := by omega
        subst hs1
        unfold dlAt
        simp only [timerLe, decide_eq_true_eq] at hcc
        omega
    · rename_i hb1
      split
      · rename_i hb2
        have hchlen : 2 * pos + 1 < l.length := by omega
        apply siftUpGo_isHeap (2 * pos + 1) _ e (2 * pos + 1) (le_refl _)
          (by simpa using hchlen)
        · -- heap pairs away from the hole at the only child
          intro i hi hi0 hic
          rw [List.length_set] at hi
          rw [dlAt_set hlen _, dlAt_set hlen _]
          by_cases hip : i = pos
          · subst hip
            rw [if_pos rfl, if_neg (by omega : ¬((i - 1) / 2 = i)), dlAt_getD]
            have h1 := hD2 hi0
            have h2 := hD1 (2 * i + 1) hchlen (by omega) (by omega)
            have hpar : (2 * i + 1 - 1) / 2 = i := by omega
            rw [hpar] at h2
            omega
          · rw [if_neg hip]
            by_cases hq : (i - 1) / 2 = pos
            · exact absurd hi (by omega)
            · rw [if_neg hq]
              exact hD1 i hi hi0 hip
        · -- the hole is a leaf: no children
          intro j hj hj0 hjpar
          rw [List.length_set] at hj
          exact absurd hjpar (by omega)
        · intro j hj hj0 hjpar _
          rw [List.length_set] at hj
          exact absurd hjpar (by omega)
      · rename_i hb2
        apply siftUpGo_isHeap pos l e pos (le_refl _) hlen hD1
        · intro j hj hj0 hjpar
          exact absurd hjpar (by omega)
        · intro j hj hj0 hjpar _
          exact absurd hjpar (by omega)

/-! ### Heap facts: push and pop preserve the invariant; the root is
minimal -/

theorem isHeap_nil : IsHeap [] := by
  intro i hi
  simp at hi

theorem heapExcept_of_isHeap {l : List Timer} (p : Nat) (h : IsHeap l) :
    heapExcept l p :=
  fun i hi hi0 _ => h i hi hi0

theorem getD_append_left {l : List Timer} (t : Timer) {k : Nat} (h : k < l.length) :
    (l ++ [t]).getD k default = l.getD k default := by
  simp [List.getD_eq_getElem?_getD, List.getElem?_append_left h]

theorem isHeap_heapPush (l : List Timer) (t : Timer) (hh : IsHeap l) :
    IsHeap (heapPush l t) := by
  unfold heapPush siftUp
  have hget : (l ++ [t]).getD l.length default = t := by
    simp [List.getD_eq_getElem?_getD]
  rw [hget]
  apply siftUpGo_isHeap l.length (l ++ [t]) t l.length (le_refl _) (by simp)
  · intro i hi hi0 hil
    simp only [List.length_append, List.length_singleton] at hi
    have hi' : i < l.length := by omega
    have hpar : (i - 1) / 2 < l.length := by omega
    unfold dlAt
    rw [getD_append_left t hi', getD_append_left t hpar]
    exact hh i hi' hi0
  · intro j hj hj0 hjpar
    simp only [List.length_append, List.length_singleton] at hj
    exact absurd hjpar (by omega)
  · intro j hj hj0 hjpar _
    simp only [List.length_append, List.length_singleton] at hj
    exact absurd hjpar (by omega)

theorem isHeap_dropLast {l : List Timer} (hh : IsHeap l) : IsHeap l.dropLast := by
  intro i hi hi0
  rw [List.length_dropLast] at hi
  rw [dlAt_dropLast hi, dlAt_dropLast (by omega)]
  exact hh i (by omega) hi0

theorem isHeap_root_le {l : List Timer} (hh : IsHeap l) :
    ∀ i, i < l.length → dlAt l 0 ≤ dlAt l i := by
  intro i
  induction i using Nat.strong_induction_on with
  | _ i ih =>
    intro hi
    rcases Nat.eq_zero_or_pos i with h0 | h0
    · subst h0; exact le_refl _
    · exact le_trans (ih ((i - 1) / 2) (by omega) (by omega)) (hh i hi h0)

theorem isHeap_root_le_mem {l : List Timer} (hh : IsHeap l) {x : Timer}
    (hx : x ∈ l) : dlAt l 0 ≤ x.deadline := by
  obtain ⟨⟨i, hi⟩, rfl⟩ := List.mem_iff_get.mp hx
  have hx2 : dlAt l i = (l.get ⟨i, hi⟩).deadline := by
    unfold dlAt
    rw [List.getD_eq_getElem l default hi]
    rfl
  rw [← hx2]
  exact isHeap_root_le hh i hi

theorem heapPop_spec {l : List Timer} (hne : l ≠ []) (hh : IsHeap l) :
    ∃ l2, heapPop l = some (l.getD 0 default, l2)
      ∧ IsHeap l2 ∧ l2.length = l.length - 1
      ∧ (l.getD 0 default) ::ₘ (↑l2 : Multiset Timer) = (↑l : Multiset Timer) := by
  have hlen : 0 < l.length := List.length_pos.mpr hne
  by_cases h1 : l.length = 1
  · refine ⟨[], ?_, isHeap_nil, by rw [List.length_nil]; omega, ?_⟩
    · unfold heapPop
      rw [if_neg (by omega), if_pos h1]
    · obtain ⟨x, rfl⟩ := List.length_eq_one.mp h1
      rfl
  · have h2 : 2 ≤ l.length := by omega
    have hl1len : l.dropLast.length = l.length - 1 := List.length_dropLast l
    refine ⟨sdbGo (l.length - 1) l.dropLast (l.getD (l.length - 1) default)
        (l.length - 1) 0, ?_, ?_, ?_, ?_⟩
    · unfold heapPop
      rw [if_neg (by omega), if_neg h1]
    · have happ := sdbGo_isHeap (l.length - 1) l.dropLast
        (l.getD (l.length - 1) default) 0 (by omega) (by omega)
        (heapExcept_of_isHeap 0 (isHeap_dropLast hh))
        (fun h => absurd h (by omega))
      rw [hl1len] at happ
      exact happ
    · rw [sdbGo_length, hl1len]
    · have hms := sdbGo_multiset (l.length - 1) l.dropLast
        (l.getD (l.length - 1) default) (l.length - 1) 0 (by omega) (by omega)
      rw [hms]
      have hms2 := multiset_set l.dropLast 0 (by omega) (l.getD (l.length - 1) default)
      have hroot : l.dropLast.getD 0 default = l.getD 0 default :=
        getD_dropLast (by omega)
      rw [hroot] at hms2
      rw [hms2]
      have hlast : l.getD (l.length - 1) default = l.getLast hne := by
        rw [List.getLast_eq_getElem l hne, List.getD_eq_getElem l default (by omega)]
      have hsplit : l.dropLast ++ [l.getLast hne] = l := List.dropLast_append_getLast hne
      calc (l.getD (l.length - 1) default) ::ₘ (↑l.dropLast : Multiset Timer)
          = (↑(l.getD (l.length - 1) default :: l.dropLast) : Multiset Timer) := by
            rw [Multiset.cons_coe]
        _ = (↑(l.dropLast ++ [l.getD (l.length - 1) default]) : Multiset Timer) := by
            exact Multiset.coe_eq_coe.mpr (List.perm_append_singleton _ _).symm
        _ = (↑l : Multiset Timer) := by rw [hlast, hsplit]

/-! ### `run_timers` correctness -/

theorem heapPop_eq_none {l : List Timer} (h : heapPop l = none) : l = [] := by
  unfold heapPop at h
  split at h
  · rename_i h0
    exact List.length_eq_zero.mp h0
  · split at h <;> exact absurd h (by simp)

theorem runTimersGo_spec (fuel : Nat) :
    ∀ (l : List Timer) (now : Nat), l.length ≤ fuel → IsHeap l →
      ((↑(runTimersGo fuel l now).1 : Multiset Timer)
          + (↑(runTimersGo fuel l now).2 : Multiset Timer) = (↑l : Multiset Timer))
      ∧ (∀ t ∈ (runTimersGo fuel l now).1, t.deadline ≤ now)
      ∧ (∀ t ∈ (runTimersGo fuel l now).2, now < t.deadline)
      ∧ (runTimersGo fuel l now).1.Pairwise
          (fun a b => a.deadline ≤ b.deadline) := by
  induction fuel with
  | zero =>
    intro l now hfuel _
    have hl : l = [] := List.length_eq_zero.mp (by omega)
    subst hl
    exact ⟨by simp [runTimersGo], by simp [runTimersGo], by simp [runTimersGo],
      by simp [runTimersGo]⟩
  | succ fuel ih =>
    intro l now hfuel hh
    by_cases hne : l = []
    · subst hne
      have hp : heapPop ([] : List Timer) = none := by simp [heapPop]
      have hred : runTimersGo (fuel + 1) [] now = ([], []) := by
        simp [runTimersGo, hp]
      rw [hred]
      exact ⟨by simp, by simp, by simp, by simp⟩
    · obtain ⟨l2, hpop, hh2, hlen2, hms⟩ := heapPop_spec hne hh
      have hred : runTimersGo (fuel + 1) l now =
          if (l.getD 0 default).deadline ≤ now then
            ((l.getD 0 default) :: (runTimersGo fuel l2 now).1,
              (runTimersGo fuel l2 now).2)
          else ([], l) := by
        simp [runTimersGo, hpop]
      have hlpos : 0 < l.length := List.length_pos.mpr hne
      by_cases hdl : (l.getD 0 default).deadline ≤ now
      · rw [hred, if_pos hdl]
        obtain ⟨ihms, ihfired, ihrest, ihpw⟩ := ih l2 now (by omega) hh2
        refine ⟨?_, ?_, ?_, ?_⟩
        · show (↑((l.getD 0 default) :: (runTimersGo fuel l2 now).1) : Multiset Timer)
            + (↑(runTimersGo fuel l2 now).2 : Multiset Timer) = (↑l : Multiset Timer)
          rw [← Multiset.cons_coe, Multiset.cons_add, ihms, hms]
        · intro t ht
          rcases List.mem_cons.mp ht with rfl | ht'
          · exact hdl
          · exact ihfired t ht'
        · exact ihrest
        · refine List.pairwise_cons.mpr ⟨?_, ihpw⟩
          intro x hx
          have hx2 : x ∈ l2 := by
            have hxm : x ∈ (↑(runTimersGo fuel l2 now).1 : Multiset Timer) := by
              simpa using hx
            have : x ∈ (↑l2 : Multiset Timer) := by
              rw [← ihms]
              exact Multiset.mem_add.mpr (Or.inl hxm)
            simpa using this
          have hx3 : x ∈ l := by
            have : x ∈ (↑l : Multiset Timer) := by
              rw [← hms]
              exact Multiset.mem_cons_of_mem (by simpa using hx2)
            simpa using this
          exact isHeap_root_le_mem hh hx3
      · rw [hred, if_neg hdl]
        refine ⟨by simp, by simp, ?_, by simp⟩
        intro t ht
        have := isHeap_root_le_mem hh ht
        unfold dlAt at this
        omega

/-- C3 (amended): For every pending-timer heap (any heap reachable by
`BinaryHeap` pushes and pops, i.e. satisfying the heap invariant) and every
instant `now`, `run_timers(now)` pops and delivers `handler.timer(token)`
for exactly the timers whose deadline is ≤ `now` — delivered and remaining
timers together form the original multiset, every delivered deadline is
≤ `now` and every remaining deadline is > `now` — in non-decreasing
deadline order.  (The original claim's tie rule — equal deadlines delivered
in issuance order — does not hold; see the counterexample.) -/
theorem run_timers_correct (l : List Timer) (now : Nat) (hh : IsHeap l) :
    ((↑(Window.run_timers l now).1 : Multiset Timer)
        + (↑(Window.run_timers l now).2 : Multiset Timer) = (↑l : Multiset Timer))
    ∧ (∀ t ∈ (Window.run_timers l now).1, t.deadline ≤ now)
    ∧ (∀ t ∈ (Window.run_timers l now).2, now < t.deadline)
    ∧ (Window.run_timers l now).1.Pairwise (fun a b => a.deadline ≤ b.deadline)
    ∧ runTimersCalls l now
        = (Window.run_timers l now).1.map (fun t => HandlerCall.timer t.token) := by
  obtain ⟨h1, h2, h3, h4⟩ := runTimersGo_spec l.length l now (le_refl _) hh
  exact ⟨h1, h2, h3, h4, rfl⟩

/-- Witness for C3 (amended) on a concrete three-timer heap. -/
theorem run_timers_correct_witness :
    IsHeap [Timer.mk 1 10, Timer.mk 5 11, Timer.mk 3 12]
    ∧ (∀ t ∈ (Window.run_timers [Timer.mk 1 10, Timer.mk 5 11, Timer.mk 3 12] 3).1,
        t.deadline ≤ 3)
    ∧ (∀ t ∈ (Window.run_timers [Timer.mk 1 10, Timer.mk 5 11, Timer.mk 3 12] 3).2,
        3 < t.deadline) :=
  ⟨by decide,
    (run_timers_correct [Timer.mk 1 10, Timer.mk 5 11, Timer.mk 3 12] 3 (by decide)).2.1,
    (run_timers_correct [Timer.mk 1 10, Timer.mk 5 11, Timer.mk 3 12] 3 (by decide)).2.2.1⟩

/-- C3 counterexample: four timers with equal deadline 5 are issued in token
order 1, 2, 3, 4 and pushed in issuance order, but `run_timers` delivers
their tokens as 1, 3, 2, 4 — `std::collections::BinaryHeap`'s pop order for
equal elements (whose `Timer` ordering ignores the token) is not issuance
order. -/
theorem run_timers_ties_cex :
    (issueTimers 1 [5, 5, 5, 5]).1.map Timer.token = [1, 2, 3, 4]
    ∧ (Window.run_timers ((issueTimers 1 [5, 5, 5, 5]).1.foldl heapPush []) 5).1.map
        Timer.token = [1, 3, 2, 4]
    ∧ [1, 3, 2, 4] ≠ [1, 2, 3, 4] := by
  decide

/-! ### Timer token monotonicity -/

theorem issueTimers_tokens (ds : List Nat) :
    ∀ counter : Nat,
      (issueTimers counter ds).1.map Timer.token
        = List.range' counter ds.length := by
  induction ds with
  | nil => intro counter; rfl
  | cons d rest ih =>
    intro counter
    show Timer.token ⟨d, counter⟩ :: (issueTimers (counter + 1) rest).1.map Timer.token
      = List.range' counter (rest.length + 1)
    rw [ih (counter + 1), List.range'_succ]

/-- C7: Within a process, the tokens of successively created timers are
strictly increasing and no timer token is ever reused: for every starting
counter value and sequence of `Timer::new` calls, the issued tokens are
pairwise strictly increasing (in particular every later call's token is
greater than — hence different from — every earlier call's token). -/
theorem timer_tokens_strictly_increasing (counter : Nat) (ds : List Nat) :
    ((issueTimers counter ds).1.map Timer.token).Pairwise (· < ·)
    ∧ ((issueTimers counter ds).1.map Timer.token).Pairwise (· ≠ ·) := by
  have h := issueTimers_tokens ds counter
  constructor
  · rw [h]
    exact List.pairwise_lt_range' counter ds.length
  · rw [h]
    exact (List.pairwise_lt_range' counter ds.length).imp Nat.ne_of_lt

/-! ### WindowHandle sentinels -/

/-- C6 counterexample: `WindowHandle::text` on a handle whose window has
been dropped does not return a sentinel — it panics ("Failed to produce a
text context"), refuting "every WindowHandle operation ... never
panics". -/
theorem window_handle_text_panics :
    WindowHandle.text (none : UpgradedWindow) = PanicOr.panicked := rfl

/-- C6 (amended): For a `WindowHandle` whose window has been dropped, the
enumerated operations are no-ops or return their documented sentinels and
do not panic — `request_timer` returns `TimerToken::INVALID` (leaving the
counter untouched), `get_position` returns `Point(0,0)`, `get_size` returns
`Size(0,0)`, `get_idle_handle` returns `None`, and `invalidate` /
`invalidate_rect` do nothing — but `text` panics on a dropped handle (and
`get_scale` / `set_title` panic unconditionally). -/
theorem dropped_handle_sentinels (deadline counter : Nat) (r : Rect) :
    WindowHandle.request_timer (none : UpgradedWindow) deadline counter
      = (TimerToken.INVALID, none, counter)
    ∧ WindowHandle.get_position (none : UpgradedWindow) = Point.mk 0 0
    ∧ WindowHandle.get_size (none : UpgradedWindow) = Size.mk 0 0
    ∧ WindowHandle.get_idle_handle (none : UpgradedWindow) = none
    ∧ WindowHandle.invalidate (none : UpgradedWindow) = none
    ∧ WindowHandle.invalidate_rect (none : UpgradedWindow) r = none
    ∧ WindowHandle.text (none : UpgradedWindow) = PanicOr.panicked
    ∧ WindowHandle.get_scale (none : UpgradedWindow) = PanicOr.panicked
    ∧ WindowHandle.set_title (none : UpgradedWindow) = PanicOr.panicked :=
  ⟨rfl, rfl, rfl, rfl, rfl, rfl, rfl, rfl, rfl⟩

/-- C8: For every input rectangle and screen height, the direct-render clip
transform satisfies `transform_clip_rect(rect, h) =
IRect(h - y1, x1, h - y2, x2)` — with the source's names `(x1, y1) =
(left, bottom)` and `(x2, y2) = (right, top)` this is
`IRect(h - bottom, left, h - top, right)`; in particular
`transform_clip_rect(IRect(10,20,30,40), H) = IRect(H-40, 10, H-20, 30)`. -/
theorem transform_clip_rect_spec (rect : IRect) (h : Int) :
    transform_clip_rect rect h
      = IRect.new (h - rect.bottom) rect.left (h - rect.top) rect.right
    ∧ ∀ H : Int, transform_clip_rect (IRect.new 10 20 30 40) H
      = IRect.new (H - 40) 10 (H - 20) 30 := by
  exact ⟨rfl, fun H => rfl⟩

end DruidShell
